import Mathlib

/-!
Verification development for the drawio-to-svg repository.

The Python sources are shallowly embedded over exact rational arithmetic
(`ℚ` models the float coordinates; no claim here depends on rounding).
Each definition mirrors one function of the source, keeping its name where
Lean allows it:

* `src/drawio_types.py`: `Point`, `Geometry`, `Geometry.from_geom`,
  `Geometry.stretch_to_contain`, `Geometry.stretch_to_contain_point`,
  `Cell.center_points`, `Cell.center_points_with_sides`, `Point.midpoint`,
  `Point.normalized`.
* `src/parser.py`: `point_from_rotated_cell`, `closest_point`,
  `get_closest_side`, `get_margin_point`, `find_best_path`, and the point
  pipeline of `render_arrow` (`resolve_points`, `synth_points`,
  `dedup_endpoints`, `adjust_caps`, `accrue_bb`), plus the glyph colour
  selection and the bounding-box correction shift of
  `_render_exploded_text`.
* `src/text_expander.py`: `FontRendererM.render` (character wrapping).

The source compares Euclidean distances computed with `sqrt`; since
`Real.sqrt` is strictly monotone on nonnegative reals, comparing two such
distances is the same as comparing the squared distances (`dist2`), which
is what the embedded loops do; `sqrt_dist2_lt_iff` below records this
equivalence so the embedding stays faithful while remaining executable.
-/

/-- `Point` from `src/drawio_types.py` (x, y coordinates). -/
structure Point where
  x : ℚ
  y : ℚ
deriving DecidableEq

/-- `Geometry` from `src/drawio_types.py`: an axis-aligned box with an
optional `relative` marker (unused by the geometric operations). -/
structure Geometry where
  x : ℚ
  y : ℚ
  width : ℚ
  height : ℚ
  relative : Option ℤ := none
deriving DecidableEq

/-- The `Point | Geometry` argument type taken by `Geometry.from_geom` and
`Geometry.stretch_to_contain` (Python dispatches with `isinstance`). -/
inductive GItem where
  | pt (p : Point)
  | geo (g : Geometry)
deriving DecidableEq

/-- Python's builtin `min` on two numbers (returns the first on ties). -/
def pymin (a b : ℚ) : ℚ := if b < a then b else a

/-- Python's builtin `max` on two numbers (returns the first on ties). -/
def pymax (a b : ℚ) : ℚ := if a < b then b else a

/-- Python's builtin `abs`. -/
def pyabs (v : ℚ) : ℚ := if v < 0 then -v else v

theorem pymin_eq_min (a b : ℚ) : pymin a b = min a b := by
  unfold pymin; rw [min_def]; split_ifs <;> linarith

theorem pymax_eq_max (a b : ℚ) : pymax a b = max a b := by
  unfold pymax; rw [max_def]; split_ifs <;> linarith

theorem pyabs_eq_abs (v : ℚ) : pyabs v = |v| := by
  unfold pyabs
  rcases lt_trichotomy v 0 with h | h | h <;>
    simp [abs_of_neg, abs_of_nonneg, h, le_of_lt]

/-- `Geometry.from_geom`: seed a box from a `Point` (zero size) or copy the
extent of a `Geometry` (the `relative` marker is dropped). -/
def Geometry.from_geom : GItem → Geometry
  | .pt p => { x := p.x, y := p.y, width := 0, height := 0 }
  | .geo g => { x := g.x, y := g.y, width := g.width, height := g.height }

/-- `Geometry.stretch_to_contain`: union of boxes by min/max of the edges;
`none` as the accumulated state seeds from the item via `from_geom`. -/
def Geometry.stretch_to_contain : Option Geometry → GItem → Geometry
  | none, item => Geometry.from_geom item
  | some s, .pt p =>
      let min_x := pymin s.x p.x
      let min_y := pymin s.y p.y
      let max_x := pymax (s.x + s.width) p.x
      let max_y := pymax (s.y + s.height) p.y
      { x := min_x, y := min_y, width := max_x - min_x, height := max_y - min_y }
  | some s, .geo g =>
      let min_x := pymin s.x g.x
      let min_y := pymin s.y g.y
      let max_x := pymax (s.x + s.width) (g.x + g.width)
      let max_y := pymax (s.y + s.height) (g.y + g.height)
      { x := min_x, y := min_y, width := max_x - min_x, height := max_y - min_y }

/-- `Geometry.stretch_to_contain_point`: the source builds
`Geometry(item.x-hw, item.y-hw, item.x+hw, item.y+hw)` — positionally this
passes `item.x+hw` and `item.y+hw` as the `width` and `height` fields of
the `Geometry` constructor — and unions it into `self`. -/
def Geometry.stretch_to_contain_point (s : Geometry) (item : Point) (stroke_width : ℚ) :
    Geometry :=
  let hw := stroke_width / 2
  Geometry.stretch_to_contain (some s)
    (.geo { x := item.x - hw, y := item.y - hw, width := item.x + hw, height := item.y + hw })

/-- The four corners of a box (used to state the C8 span property). -/
def Geometry.corners (g : Geometry) : List Point :=
  [⟨g.x, g.y⟩, ⟨g.x + g.width, g.y⟩, ⟨g.x, g.y + g.height⟩,
   ⟨g.x + g.width, g.y + g.height⟩]

/-- A point lies inside a box (inclusive edges). -/
def Geometry.containsPoint (g : Geometry) (p : Point) : Prop :=
  g.x ≤ p.x ∧ p.x ≤ g.x + g.width ∧ g.y ≤ p.y ∧ p.y ≤ g.y + g.height

instance (g : Geometry) (p : Point) : Decidable (g.containsPoint p) := by
  unfold Geometry.containsPoint; infer_instance

/-- A box contains the axis-aligned rectangle `[x0,x1] × [y0,y1]`. -/
def Geometry.containsBox (g : Geometry) (x0 y0 x1 y1 : ℚ) : Prop :=
  g.x ≤ x0 ∧ g.y ≤ y0 ∧ x1 ≤ g.x + g.width ∧ y1 ≤ g.y + g.height

instance (g : Geometry) (x0 y0 x1 y1 : ℚ) : Decidable (g.containsBox x0 y0 x1 y1) := by
  unfold Geometry.containsBox; infer_instance

/-- `Point.__add__`. -/
def Point.add (a b : Point) : Point := ⟨a.x + b.x, a.y + b.y⟩

/-- `Point.__sub__`. -/
def Point.sub (a b : Point) : Point := ⟨a.x - b.x, a.y - b.y⟩

/-- The per-coordinate sign computed by `Point.normalized`
(`0` for `0`, else `v / abs(v)`). -/
def ratSign (v : ℚ) : ℚ := if v = 0 then 0 else v / pyabs v

/-- `Point.normalized`: sign-normalize each coordinate. -/
def Point.normalized (p : Point) : Point := ⟨ratSign p.x, ratSign p.y⟩

/-- `Point.midpoint`: the source takes min and max per axis, then averages. -/
def Point.midpoint (a b : Point) : Point :=
  let minx := pymin a.x b.x
  let miny := pymin a.y b.y
  let maxx := pymax a.x b.x
  let maxy := pymax a.y b.y
  ⟨(maxx + minx) / 2, (maxy + miny) / 2⟩

/-- Squared Euclidean distance.  `Point.distance_to` and the inline
distance in `closest_point` compute `sqrt` of exactly this quantity and
use it only in comparisons; `sqrt_dist2_lt_iff` shows comparing the
square roots is equivalent, so the loops below carry `dist2` values. -/
def dist2 (a b : Point) : ℚ := (b.x - a.x) ^ 2 + (b.y - a.y) ^ 2

theorem dist2_nonneg (a b : Point) : 0 ≤ dist2 a b := by
  unfold dist2; positivity

/-- Comparing the `sqrt`-based distances of the source is the same as
comparing squared distances: `Real.sqrt` is strictly monotone on
nonnegative arguments. -/
theorem sqrt_dist2_lt_iff (a b c d : Point) :
    Real.sqrt ((dist2 a b : ℚ) : ℝ) < Real.sqrt ((dist2 c d : ℚ) : ℝ) ↔
      dist2 a b < dist2 c d := by
  rw [Real.sqrt_lt_sqrt_iff (by exact_mod_cast dist2_nonneg a b)]
  exact_mod_cast Iff.rfl

/-- `Side` from `src/drawio_types.py`. -/
inductive Side where
  | LEFT
  | RIGHT
  | TOP
  | BOTTOM
deriving DecidableEq

/-- `Direction` from `src/drawio_types.py`. -/
inductive Direction where
  | WEST
  | EAST
  | SOUTH
  | NORTH
deriving DecidableEq

/-- `Cell`, restricted to the fields the routing engine reads.  The
geometry is kept total because `render_arrow` and `closest_point` assert
it is present before any use. -/
structure Cell where
  geometry : Geometry
  direction : Direction
deriving DecidableEq

/-- `Cell.center_points`: left, right, top, bottom side centers, in this
fixed order. -/
def Cell.center_points (c : Cell) : List Point :=
  [⟨c.geometry.x, c.geometry.y + c.geometry.height / 2⟩,
   ⟨c.geometry.x + c.geometry.width, c.geometry.y + c.geometry.height / 2⟩,
   ⟨c.geometry.x + c.geometry.width / 2, c.geometry.y⟩,
   ⟨c.geometry.x + c.geometry.width / 2, c.geometry.y + c.geometry.height⟩]

/-- `Cell.center_points_with_sides`: the center points zipped with
`[LEFT, RIGHT, TOP, BOTTOM]`. -/
def Cell.center_points_with_sides (c : Cell) : List (Point × Side) :=
  List.zip c.center_points [Side.LEFT, Side.RIGHT, Side.TOP, Side.BOTTOM]

/-- The first ("for ap in a_points, for bp in b_points") loop of
`closest_point` in `src/parser.py`: track the pair of smallest distance,
strict `<` so the earliest pair wins ties; the accumulator is `none`
until the first pair (Python starts from `min_dist = inf`). -/
def closestLoop : List (Point × Point) → Option (ℚ × Point) → Option Point
  | [], acc => acc.map Prod.snd
  | (ap, bp) :: rest, none => closestLoop rest (some (dist2 ap bp, ap))
  | (ap, bp) :: rest, some (m, cl) =>
      if dist2 ap bp < m then closestLoop rest (some (dist2 ap bp, ap))
      else closestLoop rest (some (m, cl))

/-- The `Cell | Point` argument type of `closest_point`. -/
inductive CP where
  | cell (c : Cell)
  | point (p : Point)
deriving DecidableEq

/-- Candidate points of a `Cell | Point` argument: the four side centers
of a cell, or the point itself. -/
def CP.points : CP → List Point
  | .cell c => c.center_points
  | .point p => [p]

/-- `closest_point` from `src/parser.py`: the point of `a` (among its
candidates) closest to any candidate of `b`; `none` models the
`assert closest is not None` (never hit: candidate lists are nonempty). -/
def closest_point (a b : CP) : Option Point :=
  closestLoop (a.points.flatMap fun ap => b.points.map fun bp => (ap, bp)) none

/-- The loop of `get_closest_side`: the first pair is taken unchecked
(`if closest is None`), later pairs replace it on strictly smaller
distance to `p` (`mindist` is recomputed from the current `closest` each
iteration, which is exactly what carrying `closest` models). -/
def closestSideLoop (p : Point) : List (Point × Side) → Option (Point × Side) →
    Option (Point × Side)
  | [], acc => acc
  | (sidep, side) :: rest, none => closestSideLoop p rest (some (sidep, side))
  | (sidep, side) :: rest, some (cl, ch) =>
      if dist2 p sidep < dist2 p cl then closestSideLoop p rest (some (sidep, side))
      else closestSideLoop p rest (some (cl, ch))

/-- `get_closest_side` from `src/parser.py`. -/
def get_closest_side (c : Cell) (p : Point) : Option Side :=
  (closestSideLoop p c.center_points_with_sides none).map Prod.snd

/-- `get_margin_point` from `src/parser.py`: 20 units outward from `p`
along the normal of the closest side of `c`. -/
def get_margin_point (c : Cell) (p : Point) : Option (Point × Side) :=
  match get_closest_side c p with
  | some Side.LEFT => some (⟨p.x - 20, p.y⟩, Side.LEFT)
  | some Side.RIGHT => some (⟨p.x + 20, p.y⟩, Side.RIGHT)
  | some Side.TOP => some (⟨p.x, p.y - 20⟩, Side.TOP)
  | some Side.BOTTOM => some (⟨p.x, p.y + 20⟩, Side.BOTTOM)
  | none => none

/-- Python's `{ss, st} == {c, d}` on two-element set literals of `Side`:
both elements of each set occur in the other. -/
def sideSetEq (a b c d : Side) : Prop :=
  (a = c ∨ a = d) ∧ (b = c ∨ b = d) ∧ (c = a ∨ c = b) ∧ (d = a ∨ d = b)

instance (a b c d : Side) : Decidable (sideSetEq a b c d) := by
  unfold sideSetEq; infer_instance

/-- `find_best_path` from `src/parser.py`: margin points for both anchors,
then one of the "N" (opposite sides), "same side" (documented gap: no
interior points) or "L" (perpendicular sides, one elbow) templates.
Python's `len({ss, st}) == 1` is reached only when the two earlier set
comparisons failed, where it is equivalent to `ss = st`. -/
def find_best_path (sp tp : Point) (source target : Cell) : Option (List Point) := do
  let (mps, ss) ← get_margin_point source sp
  let (mpt, st) ← get_margin_point target tp
  let mid : List Point :=
    if sideSetEq ss st Side.TOP Side.BOTTOM then
      let ymid := (mps.midpoint mpt).y
      [⟨mps.x, ymid⟩, ⟨mpt.x, ymid⟩]
    else if sideSetEq ss st Side.LEFT Side.RIGHT then
      [⟨(mps.midpoint mpt).x, mps.y⟩, ⟨(mps.midpoint mpt).x, mpt.y⟩]
    else if ss = st then
      []
    else if ss = Side.LEFT ∨ ss = Side.RIGHT then
      [⟨mpt.x, mps.y⟩]
    else
      [⟨mps.x, mpt.y⟩]
  some ([mps] ++ mid ++ [mpt])

/-- `point_from_rotated_cell` from `src/parser.py`: map a fractional
anchor through the cell's direction, then scale by the cell's extent.
`none` models the `assert arrow.X is not None` / `assert arrow.Y is not
None` failures. -/
def point_from_rotated_cell (c : Cell) (aX aY : Option ℚ) : Option Point :=
  match aX, aY with
  | some ax, some ay =>
      let fs : ℚ × ℚ :=
        match c.direction with
        | .EAST => (ax, ay)
        | .SOUTH => (ay, ax)
        | .WEST => (1 - ax, ay)
        | .NORTH => (ay, 1 - ax)
      some ⟨c.geometry.x + c.geometry.width * fs.1,
            c.geometry.y + c.geometry.height * fs.2⟩
  | _, _ => none

/-- A connector endpoint: a free `Point`, or an `ArrowAtNode` (node plus
the optional `exitX/exitY` or `entryX/entryY` fractions). -/
inductive ArrowEnd where
  | pt (p : Point)
  | node (n : Cell) (X Y : Option ℚ)
deriving DecidableEq

/-- The fields of `Arrow` consumed by `render_arrow`. -/
structure Arrow where
  source : ArrowEnd
  target : ArrowEnd
  points : List Point
  start_style : String
  end_style : String
  strokeWidth : ℚ

/-- Endpoint resolution of `render_arrow` (`src/parser.py`, the part
before path synthesis): constrained anchors via
`point_from_rotated_cell`; then the *source* of an unconstrained pair is
resolved first against `target_point or target`, and the unconstrained
target afterwards against the already-resolved source point.  `none`
models any of the `assert`/crash paths. -/
def resolve_points (arrow : Arrow) : Option (Point × Point) := do
  let target : CP :=
    match arrow.target with
    | .pt p => .point p
    | .node n _ _ => .cell n
  let target_point₀ : Option Point ←
    match arrow.target with
    | .pt p => some (some p)
    | .node n X Y =>
        match X with
        | none => some none
        | some _ => (point_from_rotated_cell n X Y).map some
  let source_point₀ : Option Point ←
    match arrow.source with
    | .pt p => some (some p)
    | .node n X Y =>
        match X with
        | none => some none
        | some _ => (point_from_rotated_cell n X Y).map some
  let sp : Point ←
    match arrow.source with
    | .node n none _ =>
        closest_point (.cell n)
          (match target_point₀ with
           | some p => .point p
           | none => target)
    | _ => source_point₀
  let tp : Point ←
    match arrow.target with
    | .node n none _ => closest_point (.cell n) (.point sp)
    | _ => target_point₀
  some (sp, tp)

/-- The path-selection step of `render_arrow`: with no manual waypoints
and a node-anchored source, synthesize via `find_best_path` (asserting
the target is a node too); otherwise take the manual waypoints verbatim. -/
def synth_points (arrow : Arrow) (sp tp : Point) : Option (List Point) :=
  match arrow.points, arrow.source, arrow.target with
  | [], .node sn _ _, .node tn _ _ => find_best_path sp tp sn tn
  | [], .node _ _ _, .pt _ => none
  | ps, _, _ => some ps

/-- The endpoint-dedup step of `render_arrow`: Python tests membership
(`target_point not in points`, then `source_point not in points`) over
the whole list, appending / prepending only on absence. -/
def dedup_endpoints (points : List Point) (sp tp : Point) : List Point :=
  let points := if tp ∈ points then points else points ++ [tp]
  if sp ∈ points then points else sp :: points

/-- Start-cap adjustment of `render_arrow`: move the first point one
sign-normalized unit toward the second (`none` when fewer than two
points, modelling the `points[1]` IndexError). -/
def adjust_start (points : List Point) : Option (List Point) :=
  match points with
  | p0 :: p1 :: rest => some ((p0.add ((p1.sub p0).normalized)) :: p1 :: rest)
  | _ => none

/-- End-cap adjustment of `render_arrow`: move the last point one
sign-normalized unit back toward the second-to-last. -/
def adjust_end (points : List Point) : Option (List Point) :=
  match points.reverse with
  | pl :: pk :: rest => some (((pl.sub ((pl.sub pk).normalized)) :: pk :: rest).reverse)
  | _ => none

/-- The cap-trimming step of `render_arrow`: applied per end when the cap
style is `"classic"`. -/
def adjust_caps (arrow : Arrow) (points : List Point) : Option (List Point) := do
  let ps ← if arrow.start_style = "classic" then adjust_start points else some points
  if arrow.end_style = "classic" then adjust_end ps else some ps

/-- The bounding-box accrual loop of `render_arrow`
(`bb = Geometry.from_geom(start)` then `stretch_to_contain_point` for the
remaining points); `none` models `points[0]` on an empty list. -/
def accrue_bb (points : List Point) (stroke_width : ℚ) : Option Geometry :=
  match points with
  | [] => none
  | start :: rest =>
      some (rest.foldl (fun bb p => bb.stretch_to_contain_point p stroke_width)
        (Geometry.from_geom (.pt start)))

/-- The full point pipeline of `render_arrow`: resolve, synthesize,
dedup, trim caps. -/
def render_arrow_points (arrow : Arrow) : Option (List Point) := do
  let (sp, tp) ← resolve_points arrow
  let pts ← synth_points arrow sp tp
  adjust_caps arrow (dedup_endpoints pts sp tp)

/-- The bounding box `render_arrow` reports for its path. -/
def render_arrow_bb (arrow : Arrow) : Option Geometry := do
  let pts ← render_arrow_points arrow
  accrue_bb pts arrow.strokeWidth

/-- Resolution of a both-ends-unconstrained connector exactly as the
*claim/spec wording* of C4 describes it ("evaluate target first, then
source, using target's resolved point as the reference for source's side
choice").  This definition follows the spec's words, for comparison with
`resolve_points`, which embeds the source. -/
def resolve_unconstrained_target_first (A B : Cell) : Option (Point × Point) := do
  let tp ← closest_point (.cell B) (.cell A)
  let sp ← closest_point (.cell A) (.point tp)
  some (sp, tp)

/-- Resolution of a both-ends-unconstrained connector in the order the
source actually uses: source first (against the target node), then
target against the resolved source point. -/
def resolve_unconstrained_source_first (A B : Cell) : Option (Point × Point) := do
  let sp ← closest_point (.cell A) (.cell B)
  let tp ← closest_point (.cell B) (.point sp)
  some (sp, tp)

/-- Python's `a or b` on an `Optional[str]` left operand: `None` and the
empty string are falsy. -/
def pyOrStr (o : Option String) (d : String) : String :=
  match o with
  | none => d
  | some s => if s = "" then d else s

/-- The fields of a text run token (`TextToken` in
`src/html_flattener.py`) read by the colour/style selection. -/
structure TextToken where
  bold : Bool
  italic : Bool
  color : Option String
deriving DecidableEq

/-- The fields of `Text` (`src/drawio_types.py`) read by the colour
selection of `_render_exploded_text`. -/
structure TextEnt where
  strokeColor : String
  fontColor : String
deriving DecidableEq

/-- The glyph fill colour selection of `_render_exploded_text`
(`src/parser.py` lines 385-392): in rich-markup mode
(`text.styled_as_html`) the colour is `token.color or text.strokeColor`;
in uniform mode it is `text.fontColor`. -/
def glyph_color (styled_as_html : Bool) (token : TextToken) (t : TextEnt) : String :=
  if styled_as_html then pyOrStr token.color t.strokeColor else t.fontColor

/-- The colour fallback chain exactly as the *claim/spec wording* of C5
describes it: run colour override when present, else entity-level font
colour, else the entity's base stroke colour.  Follows the spec's words,
for comparison with `glyph_color`, which embeds the source. -/
def glyph_color_spec (token_color font_color : Option String) (stroke_color : String) :
    String :=
  match token_color with
  | some c => c
  | none =>
      match font_color with
      | some c => c
      | none => stroke_color

/-- The vertical correction shift of `_render_exploded_text`
(`src/parser.py` lines 429-438): `deltaY = -geom.height/2 + ascent/2`,
then `-= 6` when the font height is 108 px, else `+= 1.5`. -/
def correction_deltaY (geom_height ascent font_height_px : ℚ) : ℚ :=
  let deltaY := -geom_height / 2 + ascent / 2
  if font_height_px = 108 then deltaY - 6 else deltaY + 3 / 2

/-- `geom.y += deltaY` at the end of `_render_exploded_text`. -/
def apply_correction (geom : Geometry) (ascent font_height_px : ℚ) : Geometry :=
  { geom with y := geom.y + correction_deltaY geom.height ascent font_height_px }

/-- One produced line of `FontRenderer.render` (`src/text_expander.py`):
the glyphs drawn into the pen are modelled by the list of characters, `w`
and `h` are the scaled width and height the source stores. -/
structure TextLine where
  chars : List Char
  w : ℚ
  h : ℚ
deriving DecidableEq

/-- The state of a `FontRenderer`: the glyph advance-width table of the
loaded font (font units), `unitsPerEm`, and the px-per-font-unit scale
(`font_size_px / units_per_em`). -/
structure FontRendererM where
  glyphWidth : Char → ℚ
  unitsPerEm : ℚ
  scale : ℚ

/-- The character loop of `FontRenderer.render`: accumulate glyphs into
the pen advancing `x_offset`; when the next advance width would *strictly
exceed* `maxw`, flush the pen as a finished line and restart with the
current character at offset 0; a final flush emits the last line. -/
def renderChars (f : FontRendererM) (maxw : ℚ) :
    List Char → List Char → ℚ → List TextLine
  | [], pen, xoff => [⟨pen, xoff * f.scale, f.unitsPerEm * f.scale⟩]
  | c :: rest, pen, xoff =>
      if xoff + f.glyphWidth c > maxw then
        ⟨pen, xoff * f.scale, f.unitsPerEm * f.scale⟩ ::
          renderChars f maxw rest [c] (f.glyphWidth c)
      else
        renderChars f maxw rest (pen ++ [c]) (xoff + f.glyphWidth c)

/-- `FontRenderer.render`: the container width is first divided by the
scale (the loop works in font units), the loop starts with an empty pen
at offset 0. -/
def FontRendererM.render (f : FontRendererM) (data : List Char) (max_w : ℚ) :
    List TextLine :=
  renderChars f (max_w / f.scale) data [] 0

/-- The endpoint-dedup step exactly as the *claim/spec wording* of C2
describes it: append the target anchor only when the list's *last* point
differs from it, prepend the source anchor only when the *first* point of
the (possibly extended) list differs from it.  Follows the spec's words,
for comparison with `dedup_endpoints`, which embeds the source. -/
def dedup_endpoints_terminal (points : List Point) (sp tp : Point) : List Point :=
  let points := if points.getLast? = some tp then points else points ++ [tp]
  if points.head? = some sp then points else sp :: points

theorem closestLoop_nil_some (m : ℚ) (c : Point) :
    closestLoop [] (some (m, c)) = some c := rfl

theorem closestLoop_cons_none (ap bp : Point) (rest : List (Point × Point)) :
    closestLoop ((ap, bp) :: rest) none = closestLoop rest (some (dist2 ap bp, ap)) := rfl

theorem closestLoop_cons_lt {ap bp : Point} {m : ℚ} (cl : Point)
    (rest : List (Point × Point)) (h : dist2 ap bp < m) :
    closestLoop ((ap, bp) :: rest) (some (m, cl)) =
      closestLoop rest (some (dist2 ap bp, ap)) := by
  simp [closestLoop, h]

theorem closestLoop_cons_ge {ap bp : Point} {m : ℚ} (cl : Point)
    (rest : List (Point × Point)) (h : ¬ dist2 ap bp < m) :
    closestLoop ((ap, bp) :: rest) (some (m, cl)) = closestLoop rest (some (m, cl)) := by
  simp [closestLoop, h]

theorem closestSideLoop_cons_none (p sidep : Point) (side : Side)
    (rest : List (Point × Side)) :
    closestSideLoop p ((sidep, side) :: rest) none =
      closestSideLoop p rest (some (sidep, side)) := rfl

theorem closestSideLoop_cons_lt {p sidep cl : Point} (side ch : Side)
    (rest : List (Point × Side)) (h : dist2 p sidep < dist2 p cl) :
    closestSideLoop p ((sidep, side) :: rest) (some (cl, ch)) =
      closestSideLoop p rest (some (sidep, side)) := by
  simp [closestSideLoop, h]

theorem closestSideLoop_cons_ge {p sidep cl : Point} (side ch : Side)
    (rest : List (Point × Side)) (h : ¬ dist2 p sidep < dist2 p cl) :
    closestSideLoop p ((sidep, side) :: rest) (some (cl, ch)) =
      closestSideLoop p rest (some (cl, ch)) := by
  simp [closestSideLoop, h]

/-- C7: for a node with geometry and a constrained fractional anchor in
`[0,1] × [0,1]`, the resolved anchor is
`(node.x + node.width * x', node.y + node.height * y')` where `(x', y')`
is `(x, y)` for east, `(y, x)` for south, `(1-x, y)` for west and
`(y, 1-x)` for north. -/
theorem point_from_rotated_cell_remap (c : Cell) (xf yf : ℚ)
    (hx0 : 0 ≤ xf) (hx1 : xf ≤ 1) (hy0 : 0 ≤ yf) (hy1 : yf ≤ 1) :
    point_from_rotated_cell c (some xf) (some yf) =
      some ⟨c.geometry.x + c.geometry.width *
              (match c.direction with
               | .EAST => xf
               | .SOUTH => yf
               | .WEST => 1 - xf
               | .NORTH => yf),
            c.geometry.y + c.geometry.height *
              (match c.direction with
               | .EAST => yf
               | .SOUTH => xf
               | .WEST => yf
               | .NORTH => 1 - xf)⟩ := by
  obtain ⟨g, d⟩ := c
  cases d <;> rfl

/-- Witness for C7 at a north-facing cell and the anchor `(1/2, 1/3)`. -/
theorem point_from_rotated_cell_remap_witness :
    (0 : ℚ) ≤ 1 / 2 ∧ (1 : ℚ) / 2 ≤ 1 ∧ (0 : ℚ) ≤ 1 / 3 ∧ (1 : ℚ) / 3 ≤ 1 ∧
      point_from_rotated_cell ⟨⟨2, 3, 10, 20, none⟩, .NORTH⟩ (some (1 / 2)) (some (1 / 3)) =
        some ⟨2 + 10 * (1 / 3), 3 + 20 * (1 - 1 / 2)⟩ :=
  ⟨by norm_num, by norm_num, by norm_num, by norm_num,
   point_from_rotated_cell_remap ⟨⟨2, 3, 10, 20, none⟩, .NORTH⟩ (1 / 2) (1 / 3)
     (by norm_num) (by norm_num) (by norm_num) (by norm_num)⟩

/-- C5 counterexample: in rich-markup mode with no run colour override the
source paints with the entity's stroke colour, not the entity-level font
colour the claim's fallback chain would select. -/
theorem glyph_color_counterexample :
    glyph_color true ⟨false, false, none⟩ ⟨"#222222", "#111111"⟩ = "#222222" ∧
    glyph_color_spec none (some "#111111") "#222222" = "#111111" ∧
    ("#222222" : String) ≠ "#111111" :=
  ⟨rfl, rfl, by decide⟩

/-- C5 (amended): in rich-markup mode the glyph colour is the run's colour
override when present and non-empty, otherwise the entity's base stroke
colour — the entity-level font colour is never consulted there; it is the
colour used in uniform-style mode. -/
theorem glyph_color_fallback (token : TextToken) (t : TextEnt) :
    (token.color = none ∨ token.color = some "" →
      glyph_color true token t = t.strokeColor) ∧
    (∀ s : String, token.color = some s → s ≠ "" → glyph_color true token t = s) ∧
    glyph_color false token t = t.fontColor := by
  refine ⟨?_, ?_, rfl⟩
  · rintro (h | h) <;> simp [glyph_color, pyOrStr, h]
  · intro s hs hne
    simp [glyph_color, pyOrStr, hs, hne]

/-- Witness for C5 (amended) at concrete tokens and colours. -/
theorem glyph_color_fallback_witness :
    glyph_color true ⟨false, false, none⟩ ⟨"#aa0000", "#bb0000"⟩ = "#aa0000" ∧
    glyph_color true ⟨false, false, some "#cc0000"⟩ ⟨"#aa0000", "#bb0000"⟩ = "#cc0000" ∧
    glyph_color false ⟨false, false, none⟩ ⟨"#aa0000", "#bb0000"⟩ = "#bb0000" :=
  ⟨(glyph_color_fallback ⟨false, false, none⟩ ⟨"#aa0000", "#bb0000"⟩).1 (Or.inl rfl),
   (glyph_color_fallback ⟨false, false, some "#cc0000"⟩ ⟨"#aa0000", "#bb0000"⟩).2.1
     "#cc0000" rfl (by decide),
   (glyph_color_fallback ⟨false, false, none⟩ ⟨"#aa0000", "#bb0000"⟩).2.2⟩

/-- C6 counterexample: at `totalHeight = 10`, `lastUsedAscent = 4` and a
12 px font the applied shift is `-3/2`, not the claimed
`-10/2 + 4/2 = -3`: the source adds a font-height-dependent term. -/
theorem correction_shift_counterexample :
    (apply_correction ⟨0, 0, 10, 10, none⟩ 4 12).y = -3 / 2 ∧
    (-3 / 2 : ℚ) ≠ -10 / 2 + 4 / 2 := by
  constructor
  · norm_num [apply_correction, correction_deltaY]
  · norm_num

/-- C6 (amended): the vertical correction shift equals
`-totalHeight/2 + lastUsedAscent/2` *plus* a font-height-dependent term:
`-6` when the font height is 108 px, `+1.5` otherwise. -/
theorem correction_shift_formula (geom : Geometry) (ascent font_height_px : ℚ) :
    (apply_correction geom ascent font_height_px).y =
      geom.y + (-geom.height / 2 + ascent / 2) +
        (if font_height_px = 108 then -6 else 3 / 2) := by
  simp only [apply_correction, correction_deltaY]
  split_ifs <;> ring

/-- `"none"` is not the cap style `"classic"` (used to reduce the cap
branches at concrete connectors). -/
theorem none_ne_classic : ("none" : String) ≠ "classic" := by decide

/-- C2 counterexample: with manual waypoints `[(0,0), (1,1)]`, source
anchor `(1,1)` and target anchor `(0,0)`, the source suppresses both the
append and the prepend because each anchor occurs *somewhere* in the
list, while the claimed last/first rule would append and prepend
(the last point `(1,1)` differs from the target anchor `(0,0)`, and the
first point then differs from the source anchor). -/
theorem dedup_endpoints_last_first_counterexample :
    dedup_endpoints [⟨0, 0⟩, ⟨1, 1⟩] ⟨1, 1⟩ ⟨0, 0⟩ = [⟨0, 0⟩, ⟨1, 1⟩] ∧
    dedup_endpoints_terminal [⟨0, 0⟩, ⟨1, 1⟩] ⟨1, 1⟩ ⟨0, 0⟩ =
      [⟨1, 1⟩, ⟨0, 0⟩, ⟨1, 1⟩, ⟨0, 0⟩] ∧
    render_arrow_points ⟨.pt ⟨1, 1⟩, .pt ⟨0, 0⟩, [⟨0, 0⟩, ⟨1, 1⟩], "none", "none", 1⟩ =
      some [⟨0, 0⟩, ⟨1, 1⟩] ∧
    ([⟨0, 0⟩, ⟨1, 1⟩] : List Point) ≠ [⟨1, 1⟩, ⟨0, 0⟩, ⟨1, 1⟩, ⟨0, 0⟩] := by
  refine ⟨?_, ?_, ?_, ?_⟩
  · norm_num [dedup_endpoints, Point.mk.injEq]
  · norm_num [dedup_endpoints_terminal, Point.mk.injEq]
  · norm_num [render_arrow_points, resolve_points, synth_points, dedup_endpoints,
      adjust_caps, Option.bind, Point.mk.injEq, none_ne_classic]
  · norm_num [Point.mk.injEq]

/-- C2 (amended): the target anchor is appended iff it occurs *nowhere*
in the point list (by value), and the source anchor is prepended iff it
neither occurs in the list nor, when the target anchor was appended,
equals the target anchor; equality with any point of the list, terminal
or not, suppresses the append/prepend. -/
theorem dedup_endpoints_membership (points : List Point) (sp tp : Point) :
    dedup_endpoints points sp tp =
      (if sp ∈ points ∨ (tp ∉ points ∧ sp = tp) then ([] : List Point) else [sp]) ++
        points ++ (if tp ∈ points then [] else [tp]) := by
  unfold dedup_endpoints
  by_cases htp : tp ∈ points
  · by_cases hsp : sp ∈ points <;> simp [htp, hsp]
  · by_cases hsp : sp ∈ points ++ [tp]
    · rcases List.mem_append.mp hsp with h | h
      · simp [htp, hsp, h]
      · simp only [List.mem_singleton] at h
        simp [htp, hsp, h]
    · have h1 : ¬ sp ∈ points := fun h => hsp (List.mem_append.mpr (Or.inl h))
      have h2 : ¬ sp = tp := by
        intro h
        exact hsp (List.mem_append.mpr (Or.inr (by simp [h])))
      simp [htp, hsp, h1, h2]

/-- C4 counterexample: for boxes `A = (0,0,10,10)` and `B = (20,20,10,10)`
with both endpoints unconstrained, the source resolves the *source*
anchor first, yielding `((10,5), (25,20))`, while the claimed
target-first order would yield `((5,10), (20,25))`. -/
theorem resolve_order_counterexample :
    resolve_points ⟨.node ⟨⟨0, 0, 10, 10, none⟩, .EAST⟩ none none,
        .node ⟨⟨20, 20, 10, 10, none⟩, .EAST⟩ none none, [], "none", "none", 1⟩ =
      some (⟨10, 5⟩, ⟨25, 20⟩) ∧
    resolve_unconstrained_target_first ⟨⟨0, 0, 10, 10, none⟩, .EAST⟩
        ⟨⟨20, 20, 10, 10, none⟩, .EAST⟩ = some (⟨5, 10⟩, ⟨20, 25⟩) ∧
    some ((⟨10, 5⟩ : Point), (⟨25, 20⟩ : Point)) ≠
      some ((⟨5, 10⟩ : Point), (⟨20, 25⟩ : Point)) := by
  refine ⟨?_, ?_, ?_⟩
  · norm_num [resolve_points, closest_point, closestLoop, CP.points, Cell.center_points,
      dist2, Option.bind]
  · norm_num [resolve_unconstrained_target_first, closest_point, closestLoop, CP.points,
      Cell.center_points, dist2, Option.bind]
  · norm_num [Point.mk.injEq]

/-- C4 (amended): when both endpoints are unconstrained node references,
the *source* anchor is resolved first (against the target node's side
centers) and the target anchor second, against the already-resolved
source point. -/
theorem resolve_order_source_first (arrow : Arrow) (A B : Cell)
    (hs : arrow.source = ArrowEnd.node A none none)
    (ht : arrow.target = ArrowEnd.node B none none) :
    resolve_points arrow = resolve_unconstrained_source_first A B := by
  obtain ⟨s, t, pts, a, b, w⟩ := arrow
  dsimp only at hs ht
  subst hs ht
  rfl

/-- Witness for C4 (amended) at two concrete boxes. -/
theorem resolve_order_source_first_witness :
    resolve_points ⟨.node ⟨⟨0, 0, 2, 2, none⟩, .EAST⟩ none none,
        .node ⟨⟨5, 5, 2, 2, none⟩, .EAST⟩ none none, [], "none", "classic", 1⟩ =
      resolve_unconstrained_source_first ⟨⟨0, 0, 2, 2, none⟩, .EAST⟩
        ⟨⟨5, 5, 2, 2, none⟩, .EAST⟩ :=
  resolve_order_source_first _ _ _ rfl rfl

/-- C1 (the source contradicts the claim): for the connector from the
free point `(0,0)` to the free point `(10,10)` with stroke width 2, the
path is `[(0,0), (10,10)]` but the accrued box is `(0,0) 20×20`: the
first path point is seeded *unpadded* (`Geometry.from_geom(start)`), so
the box does not contain the claimed square
`[0-1, 0+1] × [0-1, 0+1]` around the first point — and the padding box
built for later points passes `item.x+hw`/`item.y+hw` positionally as
the `width`/`height` fields of `Geometry`, not as max coordinates (hence
the `20 × 20` extent instead of `11.5 × 11.5`-ish). -/
theorem render_arrow_bb_first_point_unpadded :
    render_arrow_points ⟨.pt ⟨0, 0⟩, .pt ⟨10, 10⟩, [], "none", "none", 2⟩ =
      some [⟨0, 0⟩, ⟨10, 10⟩] ∧
    render_arrow_bb ⟨.pt ⟨0, 0⟩, .pt ⟨10, 10⟩, [], "none", "none", 2⟩ =
      some ⟨0, 0, 20, 20, none⟩ ∧
    ¬ (Geometry.containsBox ⟨0, 0, 20, 20, none⟩ (0 - 2 / 2) (0 - 2 / 2)
        (0 + 2 / 2) (0 + 2 / 2)) := by
  refine ⟨?_, ?_, ?_⟩
  · norm_num [render_arrow_points, resolve_points, synth_points, dedup_endpoints,
      adjust_caps, Option.bind, Point.mk.injEq, none_ne_classic]
  · norm_num [render_arrow_bb, render_arrow_points, resolve_points, synth_points,
      dedup_endpoints, adjust_caps, accrue_bb, Geometry.stretch_to_contain_point,
      Geometry.stretch_to_contain, Geometry.from_geom, Option.bind, Point.mk.injEq,
      pymin, pymax, none_ne_classic]
  · norm_num [Geometry.containsBox]

/-- C8: for boxes of non-negative extent, `stretch_to_contain` is
commutative and associative (as the induced binary operation on boxes),
seeding from the empty (`none`) state copies the item (a `Point` gives a
zero-size box at that point), and
`stretch_to_contain(stretch_to_contain(None, A), B)` contains every
corner of `A` and `B`, has edges at the exact min/max span of the two
operands, and is minimal among boxes containing all those corners. -/
theorem stretch_to_contain_algebra (A B : Geometry)
    (hAw : 0 ≤ A.width) (hAh : 0 ≤ A.height) (hBw : 0 ≤ B.width) (hBh : 0 ≤ B.height) :
    Geometry.stretch_to_contain (some A) (.geo B) =
        Geometry.stretch_to_contain (some B) (.geo A) ∧
    (∀ C : Geometry,
      Geometry.stretch_to_contain
          (some (Geometry.stretch_to_contain (some A) (.geo B))) (.geo C) =
        Geometry.stretch_to_contain (some A)
          (.geo (Geometry.stretch_to_contain (some B) (.geo C)))) ∧
    Geometry.stretch_to_contain none (.geo A) = Geometry.from_geom (.geo A) ∧
    (∀ p : Point, Geometry.stretch_to_contain none (.pt p) =
      { x := p.x, y := p.y, width := 0, height := 0 }) ∧
    (∀ p ∈ Geometry.corners A ++ Geometry.corners B,
      (Geometry.stretch_to_contain (some (Geometry.stretch_to_contain none (.geo A)))
        (.geo B)).containsPoint p) ∧
    (Geometry.stretch_to_contain (some (Geometry.stretch_to_contain none (.geo A)))
        (.geo B)).x = min A.x B.x ∧
    (Geometry.stretch_to_contain (some (Geometry.stretch_to_contain none (.geo A)))
        (.geo B)).y = min A.y B.y ∧
    (Geometry.stretch_to_contain (some (Geometry.stretch_to_contain none (.geo A)))
        (.geo B)).width = max (A.x + A.width) (B.x + B.width) - min A.x B.x ∧
    (Geometry.stretch_to_contain (some (Geometry.stretch_to_contain none (.geo A)))
        (.geo B)).height = max (A.y + A.height) (B.y + B.height) - min A.y B.y ∧
    (∀ S : Geometry, (∀ p ∈ Geometry.corners A ++ Geometry.corners B, S.containsPoint p) →
      (Geometry.stretch_to_contain (some (Geometry.stretch_to_contain none (.geo A)))
        (.geo B)).width ≤ S.width ∧
      (Geometry.stretch_to_contain (some (Geometry.stretch_to_contain none (.geo A)))
        (.geo B)).height ≤ S.height) := by
  have hkey : ∀ u v : ℚ, u + (v - u) = v := fun u v => by ring
  obtain ⟨ax, ay, aw, ah, ar⟩ := A
  obtain ⟨bx, byy, bw, bh, br⟩ := B
  dsimp only at hAw hAh hBw hBh
  refine ⟨?_, ?_, rfl, fun p => rfl, ?_, ?_, ?_, ?_, ?_, ?_⟩
  · simp [Geometry.stretch_to_contain, pymin_eq_min, pymax_eq_max, min_comm, max_comm]
  · intro C
    obtain ⟨cx, cy, cw, ch, cr⟩ := C
    simp only [Geometry.stretch_to_contain, pymin_eq_min, pymax_eq_max, hkey,
      Geometry.mk.injEq]
    refine ⟨min_assoc ax bx cx, min_assoc ay byy cy, ?_, ?_, trivial⟩
    · rw [max_assoc, min_assoc]
    · rw [max_assoc, min_assoc]
  · intro p hp
    simp only [Geometry.corners, List.mem_append, List.mem_cons,
      List.not_mem_nil, or_false] at hp
    simp only [Geometry.stretch_to_contain, Geometry.from_geom, Geometry.containsPoint,
      pymin_eq_min, pymax_eq_max, hkey]
    rcases hp with (h | h | h | h) | (h | h | h | h) <;> subst h <;>
      refine ⟨?_, ?_, ?_, ?_⟩ <;>
      simp only [min_le_iff, le_max_iff] <;>
      first
        | linarith
        | (left; linarith)
        | (right; linarith)
  · simp [Geometry.stretch_to_contain, Geometry.from_geom, pymin_eq_min]
  · simp [Geometry.stretch_to_contain, Geometry.from_geom, pymin_eq_min]
  · simp [Geometry.stretch_to_contain, Geometry.from_geom, pymin_eq_min, pymax_eq_max]
  · simp [Geometry.stretch_to_contain, Geometry.from_geom, pymin_eq_min, pymax_eq_max]
  · intro S hS
    have c1 := hS ⟨ax, ay⟩ (by simp [Geometry.corners])
    have c2 := hS ⟨ax + aw, ay + ah⟩ (by simp [Geometry.corners])
    have c3 := hS ⟨bx, byy⟩ (by simp [Geometry.corners])
    have c4 := hS ⟨bx + bw, byy + bh⟩ (by simp [Geometry.corners])
    simp only [Geometry.containsPoint] at c1 c2 c3 c4
    simp only [Geometry.stretch_to_contain, Geometry.from_geom, pymin_eq_min,
      pymax_eq_max]
    constructor
    · have hmax : max (ax + aw) (bx + bw) ≤ S.x + S.width := max_le c2.2.1 c4.2.1
      have hmin : S.x ≤ min ax bx := le_min c1.1 c3.1
      linarith
    · have hmax : max (ay + ah) (byy + bh) ≤ S.y + S.height :=
        max_le c2.2.2.2 c4.2.2.2
      have hmin : S.y ≤ min ay byy := le_min c1.2.2.1 c3.2.2.1
      linarith

/-- Witness for C8 at the boxes `(0,0) 2×3` and `(10,1) 4×5`. -/
theorem stretch_to_contain_algebra_witness :
    (0 : ℚ) ≤ (⟨0, 0, 2, 3, none⟩ : Geometry).width ∧
    (0 : ℚ) ≤ (⟨0, 0, 2, 3, none⟩ : Geometry).height ∧
    (0 : ℚ) ≤ (⟨10, 1, 4, 5, none⟩ : Geometry).width ∧
    (0 : ℚ) ≤ (⟨10, 1, 4, 5, none⟩ : Geometry).height ∧
    Geometry.stretch_to_contain (some ⟨0, 0, 2, 3, none⟩) (.geo ⟨10, 1, 4, 5, none⟩) =
      Geometry.stretch_to_contain (some ⟨10, 1, 4, 5, none⟩) (.geo ⟨0, 0, 2, 3, none⟩) :=
  ⟨by norm_num, by norm_num, by norm_num, by norm_num,
   (stretch_to_contain_algebra ⟨0, 0, 2, 3, none⟩ ⟨10, 1, 4, 5, none⟩
     (by norm_num) (by norm_num) (by norm_num) (by norm_num)).1⟩

theorem renderChars_ne_nil (f : FontRendererM) (m : ℚ) :
    ∀ (l pen : List Char) (xoff : ℚ), renderChars f m l pen xoff ≠ [] := by
  intro l
  induction l with
  | nil => intro pen xoff; simp [renderChars]
  | cons c rest ih =>
      intro pen xoff
      simp only [renderChars]
      split_ifs
      · simp
      · exact ih _ _

/-- The first line emitted from any loop state starts with the glyphs
already in the pen. -/
theorem renderChars_head_pen (f : FontRendererM) (m : ℚ) :
    ∀ (l pen : List Char) (xoff : ℚ),
      ∃ tl rest t, renderChars f m l pen xoff = tl :: rest ∧ tl.chars = pen ++ t := by
  intro l
  induction l with
  | nil =>
      intro pen xoff
      exact ⟨_, [], [], rfl, (List.append_nil pen).symm⟩
  | cons c rest ih =>
      intro pen xoff
      simp only [renderChars]
      split_ifs with h
      · exact ⟨_, _, [], rfl, (List.append_nil pen).symm⟩
      · obtain ⟨tl, rs, t, heq, hch⟩ := ih (pen ++ [c]) (xoff + f.glyphWidth c)
        exact ⟨tl, rs, [c] ++ t, heq, by rw [hch, List.append_assoc]⟩

theorem sum_take_le_of_nonneg (l : List ℚ) (h : ∀ x ∈ l, 0 ≤ x) (k : ℕ) :
    (l.take k).sum ≤ l.sum := by
  have h2 : l.take k ++ l.drop k = l := List.take_append_drop k l
  have h3 : l.sum = (l.take k).sum + (l.drop k).sum := by rw [← List.sum_append, h2]
  have h4 : 0 ≤ (l.drop k).sum :=
    List.sum_nonneg (fun x hx => h x (List.drop_subset k l hx))
  linarith

/-- While every running prefix fits within `maxw`, the loop draws glyphs
into the pen without flushing. -/
theorem renderChars_no_flush (f : FontRendererM) (m : ℚ) :
    ∀ (xs ys pen : List Char) (xoff : ℚ),
      (∀ i, i < xs.length → xoff + ((xs.take (i + 1)).map f.glyphWidth).sum ≤ m) →
      renderChars f m (xs ++ ys) pen xoff =
        renderChars f m ys (pen ++ xs) (xoff + (xs.map f.glyphWidth).sum) := by
  intro xs
  induction xs with
  | nil => intro ys pen xoff h; simp
  | cons c rest ih =>
      intro ys pen xoff h
      have h0 : xoff + f.glyphWidth c ≤ m := by
        have := h 0 (by simp)
        simpa using this
      simp only [List.cons_append, renderChars]
      rw [if_neg (by exact not_lt.mpr h0)]
      rw [List.append_eq, ih ys (pen ++ [c]) (xoff + f.glyphWidth c) ?hcond]
      · rw [List.append_assoc]
        simp only [List.singleton_append, List.map_cons, List.sum_cons]
        ring_nf
      case hcond =>
        intro i hi
        have h2 := h (i + 1) (by simpa using Nat.succ_lt_succ hi)
        simpa [List.map_cons, List.sum_cons, add_assoc] using h2

/-- C10: the wrap loop always returns at least one line (a final flush
emits the pending pen even when no character was consumed), and for the
empty string it returns exactly one line of width 0. -/
theorem render_lines_nonempty (f : FontRendererM) (data : List Char) (max_w : ℚ) :
    f.render data max_w ≠ [] ∧
    f.render [] max_w = [⟨[], 0, f.unitsPerEm * f.scale⟩] := by
  constructor
  · exact renderChars_ne_nil f (max_w / f.scale) data [] 0
  · simp [FontRendererM.render, renderChars]

/-- C9: with the container width exactly equal to the summed advance
widths of the first `N` characters (all non-negative, and the `N+1`-st
strictly positive), the first `N` characters stay on the first line and
the `N+1`-st character starts the second line. -/
theorem wrap_exact_fit_boundary (f : FontRendererM) (cs tail : List Char) (cN : Char)
    (N : ℕ) (max_w : ℚ)
    (hdrop : cs.drop N = cN :: tail)
    (hnn : ∀ c ∈ cs.take N, 0 ≤ f.glyphWidth c)
    (hpos : 0 < f.glyphWidth cN)
    (hmw : max_w / f.scale = ((cs.take N).map f.glyphWidth).sum) :
    ∃ tl₂ rest, f.render cs max_w =
      ⟨cs.take N, ((cs.take N).map f.glyphWidth).sum * f.scale,
        f.unitsPerEm * f.scale⟩ :: tl₂ :: rest ∧
      tl₂.chars.head? = some cN := by
  unfold FontRendererM.render
  rw [hmw]
  have hsplit : cs = cs.take N ++ (cN :: tail) := by
    rw [← hdrop, List.take_append_drop]
  have hcond : ∀ i, i < (cs.take N).length →
      0 + (((cs.take N).take (i + 1)).map f.glyphWidth).sum ≤
        ((cs.take N).map f.glyphWidth).sum := by
    intro i _
    rw [zero_add, List.map_take]
    exact sum_take_le_of_nonneg _
      (fun x hx => by
        obtain ⟨c, hc, hcx⟩ := List.mem_map.mp hx
        exact hcx ▸ hnn c hc) _
  have h1 : renderChars f (((cs.take N).map f.glyphWidth).sum) cs [] 0 =
      renderChars f (((cs.take N).map f.glyphWidth).sum) (cs.take N ++ (cN :: tail)) [] 0 := by
    rw [← hsplit]
  have h2 := renderChars_no_flush f (((cs.take N).map f.glyphWidth).sum)
    (cs.take N) (cN :: tail) [] 0 hcond
  rw [h1, h2, List.nil_append, zero_add]
  simp only [renderChars]
  rw [if_pos (by linarith)]
  obtain ⟨tl, rs, t, heq, hch⟩ := renderChars_head_pen f
    (((cs.take N).map f.glyphWidth).sum) tail [cN] (f.glyphWidth cN)
  refine ⟨tl, rs, ?_, ?_⟩
  · rw [heq]
  · rw [hch]
    rfl

/-- Witness for C9: three characters of advance width 2 each, container
width 4 and scale 1 keep `['a', 'b']` on the first line and start the
second line at `'c'`. -/
theorem wrap_exact_fit_boundary_witness :
    (0 : ℚ) < 2 ∧
    (4 : ℚ) / 1 = (((['a', 'b', 'c'].take 2)).map fun _ => (2 : ℚ)).sum ∧
    ∃ tl₂ rest,
      FontRendererM.render ⟨fun _ => 2, 16, 1⟩ ['a', 'b', 'c'] 4 =
        ⟨['a', 'b', 'c'].take 2, ((['a', 'b', 'c'].take 2).map fun _ => (2 : ℚ)).sum * 1,
          16 * 1⟩ :: tl₂ :: rest ∧
      tl₂.chars.head? = some 'c' :=
  ⟨by norm_num, by norm_num,
   wrap_exact_fit_boundary ⟨fun _ => 2, 16, 1⟩ ['a', 'b', 'c'] [] 'c' 2 4 rfl
     (fun c _ => by norm_num) (by norm_num) (by norm_num)⟩

set_option maxHeartbeats 1000000 in
/-- For a horizontally separated pair of cells on the same horizontal
band, `closest_point` picks the source's right side center. -/
theorem closest_point_same_band (A B : Cell)
    (haw : 0 < A.geometry.width)
    (hbw : 0 ≤ B.geometry.width)
    (hgap : A.geometry.x + A.geometry.width < B.geometry.x)
    (hband : A.geometry.y + A.geometry.height / 2 = B.geometry.y + B.geometry.height / 2) :
    closest_point (.cell A) (.cell B) =
      some ⟨A.geometry.x + A.geometry.width, A.geometry.y + A.geometry.height / 2⟩ := by
  obtain ⟨⟨ax, ay, aw, ah, ar⟩, ad⟩ := A
  obtain ⟨⟨bx, byy, bw, bh, br⟩, bd⟩ := B
  dsimp only at haw hbw hgap hband ⊢
  have hyy : byy = ay + ah / 2 - bh / 2 := by linarith
  subst hyy
  have hg : 0 < bx - (ax + aw) := by linarith
  have hbx : 0 < bx - ax := by linarith
  rw [closest_point]
  simp only [CP.points, Cell.center_points, List.flatMap_cons, List.flatMap_nil,
    List.map_cons, List.map_nil, List.cons_append, List.nil_append, List.append_nil]
  set PL : Point := ⟨ax, ay + ah / 2⟩ with hPL
  set PR : Point := ⟨ax + aw, ay + ah / 2⟩ with hPR
  set PT : Point := ⟨ax + aw / 2, ay⟩ with hPT
  set PB : Point := ⟨ax + aw / 2, ay + ah⟩ with hPB
  set QL : Point := ⟨bx, ay + ah / 2 - bh / 2 + bh / 2⟩ with hQL
  set QR : Point := ⟨bx + bw, ay + ah / 2 - bh / 2 + bh / 2⟩ with hQR
  set QT : Point := ⟨bx + bw / 2, ay + ah / 2 - bh / 2⟩ with hQT
  set QB : Point := ⟨bx + bw / 2, ay + ah / 2 - bh / 2 + bh⟩ with hQB
  have hints1 : 0 ≤ bw * (bx - ax) := mul_nonneg hbw hbx.le
  have hints2 : 0 ≤ bw * (bx - (ax + aw)) := mul_nonneg hbw hg.le
  have hints3 : 0 < aw * (bx - ax) := mul_pos haw hbx
  have hints4 : 0 < aw * (bx - (ax + aw)) := mul_pos haw hg
  have e2 : ¬ dist2 PL QR < dist2 PL QL := by
    rw [not_lt]
    simp only [hPL, hQR, hQL, dist2]
    nlinarith [hints1, sq_nonneg bw]
  have e3 : ¬ dist2 PL QT < dist2 PL QL := by
    rw [not_lt]
    simp only [hPL, hQT, hQL, dist2]
    nlinarith [hints1, sq_nonneg bw, sq_nonneg bh]
  have e4 : ¬ dist2 PL QB < dist2 PL QL := by
    rw [not_lt]
    simp only [hPL, hQB, hQL, dist2]
    nlinarith [hints1, sq_nonneg bw, sq_nonneg bh]
  have e5 : dist2 PR QL < dist2 PL QL := by
    simp only [hPR, hPL, hQL, dist2]
    nlinarith [hints3, hints4]
  have e6 : ¬ dist2 PR QR < dist2 PR QL := by
    rw [not_lt]
    simp only [hPR, hQR, hQL, dist2]
    nlinarith [hints2, sq_nonneg bw]
  have e7 : ¬ dist2 PR QT < dist2 PR QL := by
    rw [not_lt]
    simp only [hPR, hQT, hQL, dist2]
    nlinarith [hints2, sq_nonneg bw, sq_nonneg bh]
  have e8 : ¬ dist2 PR QB < dist2 PR QL := by
    rw [not_lt]
    simp only [hPR, hQB, hQL, dist2]
    nlinarith [hints2, sq_nonneg bw, sq_nonneg bh]
  have e9 : ¬ dist2 PT QL < dist2 PR QL := by
    rw [not_lt]
    simp only [hPT, hPR, hQL, dist2]
    nlinarith [hints4, sq_nonneg aw, sq_nonneg (ah + bh), sq_nonneg (ah - bh), sq_nonneg ah]
  have e10 : ¬ dist2 PT QR < dist2 PR QL := by
    rw [not_lt]
    simp only [hPT, hPR, hQR, hQL, dist2]
    nlinarith [hints1, hints2, hints4, sq_nonneg aw, sq_nonneg bw, sq_nonneg (aw + bw),
      sq_nonneg ah, mul_nonneg haw.le hbw]
  have e11 : ¬ dist2 PT QT < dist2 PR QL := by
    rw [not_lt]
    simp only [hPT, hPR, hQT, hQL, dist2]
    nlinarith [hints1, hints2, hints4, sq_nonneg aw, sq_nonneg bw, sq_nonneg (aw + bw),
      sq_nonneg (ah - bh), sq_nonneg ah, sq_nonneg bh, mul_nonneg haw.le hbw]
  have e12 : ¬ dist2 PT QB < dist2 PR QL := by
    rw [not_lt]
    simp only [hPT, hPR, hQB, hQL, dist2]
    nlinarith [hints1, hints2, hints4, sq_nonneg aw, sq_nonneg bw, sq_nonneg (aw + bw),
      sq_nonneg (ah + bh), sq_nonneg ah, sq_nonneg bh, mul_nonneg haw.le hbw]
  have e13 : ¬ dist2 PB QL < dist2 PR QL := by
    rw [not_lt]
    simp only [hPB, hPR, hQL, dist2]
    nlinarith [hints4, sq_nonneg aw, sq_nonneg (ah + bh), sq_nonneg (ah - bh), sq_nonneg ah]
  have e14 : ¬ dist2 PB QR < dist2 PR QL := by
    rw [not_lt]
    simp only [hPB, hPR, hQR, hQL, dist2]
    nlinarith [hints1, hints2, hints4, sq_nonneg aw, sq_nonneg bw, sq_nonneg (aw + bw),
      sq_nonneg ah, mul_nonneg haw.le hbw]
  have e15 : ¬ dist2 PB QT < dist2 PR QL := by
    rw [not_lt]
    simp only [hPB, hPR, hQT, hQL, dist2]
    nlinarith [hints1, hints2, hints4, sq_nonneg aw, sq_nonneg bw, sq_nonneg (aw + bw),
      sq_nonneg (ah + bh), sq_nonneg ah, sq_nonneg bh, mul_nonneg haw.le hbw]
  have e16 : ¬ dist2 PB QB < dist2 PR QL := by
    rw [not_lt]
    simp only [hPB, hPR, hQB, hQL, dist2]
    nlinarith [hints1, hints2, hints4, sq_nonneg aw, sq_nonneg bw, sq_nonneg (aw + bw),
      sq_nonneg (ah - bh), sq_nonneg ah, sq_nonneg bh, mul_nonneg haw.le hbw]
  rw [closestLoop_cons_none,
      closestLoop_cons_ge PL _ e2, closestLoop_cons_ge PL _ e3, closestLoop_cons_ge PL _ e4,
      closestLoop_cons_lt PL _ e5,
      closestLoop_cons_ge PR _ e6, closestLoop_cons_ge PR _ e7, closestLoop_cons_ge PR _ e8,
      closestLoop_cons_ge PR _ e9, closestLoop_cons_ge PR _ e10, closestLoop_cons_ge PR _ e11,
      closestLoop_cons_ge PR _ e12, closestLoop_cons_ge PR _ e13, closestLoop_cons_ge PR _ e14,
      closestLoop_cons_ge PR _ e15, closestLoop_cons_ge PR _ e16,
      closestLoop_nil_some]

set_option maxHeartbeats 1000000 in
/-- From the source's resolved right-side anchor, `closest_point` picks
the target's left side center. -/
theorem closest_point_from_right_anchor (A B : Cell)
    (hbw : 0 ≤ B.geometry.width)
    (hgap : A.geometry.x + A.geometry.width < B.geometry.x)
    (hband : A.geometry.y + A.geometry.height / 2 = B.geometry.y + B.geometry.height / 2) :
    closest_point (.cell B)
        (.point ⟨A.geometry.x + A.geometry.width, A.geometry.y + A.geometry.height / 2⟩) =
      some ⟨B.geometry.x, B.geometry.y + B.geometry.height / 2⟩ := by
  obtain ⟨⟨ax, ay, aw, ah, ar⟩, ad⟩ := A
  obtain ⟨⟨bx, byy, bw, bh, br⟩, bd⟩ := B
  dsimp only at hbw hgap hband ⊢
  have hyy : byy = ay + ah / 2 - bh / 2 := by linarith
  subst hyy
  have hg : 0 < bx - (ax + aw) := by linarith
  rw [closest_point]
  simp only [CP.points, Cell.center_points, List.flatMap_cons, List.flatMap_nil,
    List.map_cons, List.map_nil, List.cons_append, List.nil_append, List.append_nil]
  set SP : Point := ⟨ax + aw, ay + ah / 2⟩ with hSP
  set QL : Point := ⟨bx, ay + ah / 2 - bh / 2 + bh / 2⟩ with hQL
  set QR : Point := ⟨bx + bw, ay + ah / 2 - bh / 2 + bh / 2⟩ with hQR
  set QT : Point := ⟨bx + bw / 2, ay + ah / 2 - bh / 2⟩ with hQT
  set QB : Point := ⟨bx + bw / 2, ay + ah / 2 - bh / 2 + bh⟩ with hQB
  have hints2 : 0 ≤ bw * (bx - (ax + aw)) := mul_nonneg hbw hg.le
  have f2 : ¬ dist2 QR SP < dist2 QL SP := by
    rw [not_lt]
    simp only [hQR, hQL, hSP, dist2]
    nlinarith [hints2, sq_nonneg bw]
  have f3 : ¬ dist2 QT SP < dist2 QL SP := by
    rw [not_lt]
    simp only [hQT, hQL, hSP, dist2]
    nlinarith [hints2, sq_nonneg bw, sq_nonneg bh]
  have f4 : ¬ dist2 QB SP < dist2 QL SP := by
    rw [not_lt]
    simp only [hQB, hQL, hSP, dist2]
    nlinarith [hints2, sq_nonneg bw, sq_nonneg bh]
  rw [closestLoop_cons_none,
      closestLoop_cons_ge QL _ f2, closestLoop_cons_ge QL _ f3, closestLoop_cons_ge QL _ f4,
      closestLoop_nil_some]

/-- At a cell's own right-side center the closest side is `RIGHT`
(the cell's width must be positive, else `LEFT` ties and wins). -/
theorem get_closest_side_right (c : Cell) (hw : 0 < c.geometry.width) :
    get_closest_side c
        ⟨c.geometry.x + c.geometry.width, c.geometry.y + c.geometry.height / 2⟩ =
      some Side.RIGHT := by
  obtain ⟨⟨x, y, w, h, r⟩, d⟩ := c
  dsimp only at hw ⊢
  rw [get_closest_side]
  simp only [Cell.center_points_with_sides, Cell.center_points, List.zip, List.zipWith]
  set P : Point := ⟨x + w, y + h / 2⟩ with hP
  set CL : Point := ⟨x, y + h / 2⟩ with hCL
  set CT : Point := ⟨x + w / 2, y⟩ with hCT
  set CB : Point := ⟨x + w / 2, y + h⟩ with hCB
  have s2 : dist2 P P < dist2 P CL := by
    simp only [hP, hCL, dist2]
    nlinarith [mul_pos hw hw]
  have s3 : ¬ dist2 P CT < dist2 P P := by
    rw [not_lt]
    simp only [hP, hCT, dist2]
    nlinarith [sq_nonneg w, sq_nonneg h]
  have s4 : ¬ dist2 P CB < dist2 P P := by
    rw [not_lt]
    simp only [hP, hCB, dist2]
    nlinarith [sq_nonneg w, sq_nonneg h]
  rw [closestSideLoop_cons_none, closestSideLoop_cons_lt Side.RIGHT Side.LEFT _ s2,
      closestSideLoop_cons_ge Side.TOP Side.RIGHT _ s3,
      closestSideLoop_cons_ge Side.BOTTOM Side.RIGHT _ s4]
  rfl

/-- At a cell's own left-side center the closest side is `LEFT`
(it is first in enumeration order and ties are kept). -/
theorem get_closest_side_left (c : Cell) :
    get_closest_side c ⟨c.geometry.x, c.geometry.y + c.geometry.height / 2⟩ =
      some Side.LEFT := by
  obtain ⟨⟨x, y, w, h, r⟩, d⟩ := c
  dsimp only
  rw [get_closest_side]
  simp only [Cell.center_points_with_sides, Cell.center_points, List.zip, List.zipWith]
  set P : Point := ⟨x, y + h / 2⟩ with hP
  set CR : Point := ⟨x + w, y + h / 2⟩ with hCR
  set CT : Point := ⟨x + w / 2, y⟩ with hCT
  set CB : Point := ⟨x + w / 2, y + h⟩ with hCB
  have s2 : ¬ dist2 P CR < dist2 P P := by
    rw [not_lt]
    simp only [hP, hCR, dist2]
    nlinarith [sq_nonneg w]
  have s3 : ¬ dist2 P CT < dist2 P P := by
    rw [not_lt]
    simp only [hP, hCT, dist2]
    nlinarith [sq_nonneg w, sq_nonneg h]
  have s4 : ¬ dist2 P CB < dist2 P P := by
    rw [not_lt]
    simp only [hP, hCB, dist2]
    nlinarith [sq_nonneg w, sq_nonneg h]
  rw [closestSideLoop_cons_none, closestSideLoop_cons_ge Side.RIGHT Side.LEFT _ s2,
      closestSideLoop_cons_ge Side.TOP Side.LEFT _ s3,
      closestSideLoop_cons_ge Side.BOTTOM Side.LEFT _ s4]
  rfl

theorem get_margin_point_right (c : Cell) (hw : 0 < c.geometry.width) :
    get_margin_point c
        ⟨c.geometry.x + c.geometry.width, c.geometry.y + c.geometry.height / 2⟩ =
      some (⟨c.geometry.x + c.geometry.width + 20, c.geometry.y + c.geometry.height / 2⟩,
        Side.RIGHT) := by
  rw [get_margin_point, get_closest_side_right c hw]

theorem get_margin_point_left (c : Cell) :
    get_margin_point c ⟨c.geometry.x, c.geometry.y + c.geometry.height / 2⟩ =
      some (⟨c.geometry.x - 20, c.geometry.y + c.geometry.height / 2⟩, Side.LEFT) := by
  rw [get_margin_point, get_closest_side_left c]

/-- With a right-side source anchor and a left-side target anchor,
`find_best_path` takes the `{LEFT, RIGHT}` branch and emits the two
margin points with *two* interior points, both at the horizontal
midpoint of the margin points. -/
theorem find_best_path_same_band (A B : Cell) (haw : 0 < A.geometry.width) :
    find_best_path ⟨A.geometry.x + A.geometry.width, A.geometry.y + A.geometry.height / 2⟩
        ⟨B.geometry.x, B.geometry.y + B.geometry.height / 2⟩ A B =
      some [⟨A.geometry.x + A.geometry.width + 20, A.geometry.y + A.geometry.height / 2⟩,
            ⟨(A.geometry.x + A.geometry.width + 20 + (B.geometry.x - 20)) / 2,
              A.geometry.y + A.geometry.height / 2⟩,
            ⟨(A.geometry.x + A.geometry.width + 20 + (B.geometry.x - 20)) / 2,
              B.geometry.y + B.geometry.height / 2⟩,
            ⟨B.geometry.x - 20, B.geometry.y + B.geometry.height / 2⟩] := by
  have h1 : ¬ sideSetEq Side.RIGHT Side.LEFT Side.TOP Side.BOTTOM := by decide
  have h2 : sideSetEq Side.RIGHT Side.LEFT Side.LEFT Side.RIGHT := by decide
  rw [find_best_path, get_margin_point_right A haw, get_margin_point_left B]
  simp only [Option.bind_eq_bind', Option.some_bind', Point.midpoint,
    pymin_eq_min, pymax_eq_max]
  rw [if_neg h1, if_pos h2]
  simp only [List.cons_append, List.nil_append, Option.some.injEq, List.cons.injEq,
    Point.mk.injEq, and_true, true_and]
  rw [max_add_min]
  exact ⟨rfl, rfl⟩

/-- A connector whose two endpoints are unconstrained node references
resolves by the source-first closest-point procedure (shared reduction
helper for C3/C4). -/
theorem resolve_points_unconstrained (A B : Cell) (pts : List Point)
    (sa sb : String) (w : ℚ) :
    resolve_points ⟨.node A none none, .node B none none, pts, sa, sb, w⟩ =
      resolve_unconstrained_source_first A B := rfl

/-- C3 counterexample: boxes `(0,0,10,10)` and `(70,0,10,10)` share the
horizontal band `y = 5`; both endpoints unconstrained resolve to
`(10,5)` and `(70,5)`, and the synthesized path has *four* points — two
(coincident) elbows between the margin points, not the claimed single
"L" elbow. -/
theorem same_band_path_counterexample :
    resolve_points ⟨.node ⟨⟨0, 0, 10, 10, none⟩, .EAST⟩ none none,
        .node ⟨⟨70, 0, 10, 10, none⟩, .EAST⟩ none none, [], "none", "none", 1⟩ =
      some (⟨10, 5⟩, ⟨70, 5⟩) ∧
    find_best_path ⟨10, 5⟩ ⟨70, 5⟩ ⟨⟨0, 0, 10, 10, none⟩, .EAST⟩
        ⟨⟨70, 0, 10, 10, none⟩, .EAST⟩ =
      some [⟨30, 5⟩, ⟨40, 5⟩, ⟨40, 5⟩, ⟨50, 5⟩] ∧
    (find_best_path ⟨10, 5⟩ ⟨70, 5⟩ ⟨⟨0, 0, 10, 10, none⟩, .EAST⟩
        ⟨⟨70, 0, 10, 10, none⟩, .EAST⟩).map List.length ≠ some 3 := by
  have hpath : find_best_path ⟨10, 5⟩ ⟨70, 5⟩ ⟨⟨0, 0, 10, 10, none⟩, .EAST⟩
      ⟨⟨70, 0, 10, 10, none⟩, .EAST⟩ =
      some [⟨30, 5⟩, ⟨40, 5⟩, ⟨40, 5⟩, ⟨50, 5⟩] := by
    norm_num [find_best_path, get_margin_point, get_closest_side, closestSideLoop,
      Cell.center_points_with_sides, Cell.center_points, dist2, Point.midpoint,
      Option.bind, List.zip, pymin, pymax,
      show ¬ sideSetEq Side.RIGHT Side.LEFT Side.TOP Side.BOTTOM by decide,
      show sideSetEq Side.RIGHT Side.LEFT Side.LEFT Side.RIGHT by decide]
  refine ⟨?_, hpath, ?_⟩
  · norm_num [resolve_points, closest_point, closestLoop, CP.points, Cell.center_points,
      dist2, Option.bind]
  · rw [hpath]
    simp

/-- C3 (amended): for a connector with both endpoints unconstrained and
boxes on the same horizontal band (source strictly left of target), the
synthesized path is the `{LEFT, RIGHT}` "N" case: between the two margin
points it contains exactly *two* elbow points, which coincide (both at
the horizontal midpoint of the margin points, on the shared band). -/
theorem same_band_path_two_elbows (arrow : Arrow) (A B : Cell)
    (hs : arrow.source = ArrowEnd.node A none none)
    (ht : arrow.target = ArrowEnd.node B none none)
    (hp : arrow.points = [])
    (haw : 0 < A.geometry.width)
    (hbw : 0 ≤ B.geometry.width)
    (hgap : A.geometry.x + A.geometry.width < B.geometry.x)
    (hband : A.geometry.y + A.geometry.height / 2 = B.geometry.y + B.geometry.height / 2) :
    resolve_points arrow =
      some (⟨A.geometry.x + A.geometry.width, A.geometry.y + A.geometry.height / 2⟩,
            ⟨B.geometry.x, B.geometry.y + B.geometry.height / 2⟩) ∧
    synth_points arrow
        ⟨A.geometry.x + A.geometry.width, A.geometry.y + A.geometry.height / 2⟩
        ⟨B.geometry.x, B.geometry.y + B.geometry.height / 2⟩ =
      some [⟨A.geometry.x + A.geometry.width + 20, A.geometry.y + A.geometry.height / 2⟩,
            ⟨(A.geometry.x + A.geometry.width + 20 + (B.geometry.x - 20)) / 2,
              A.geometry.y + A.geometry.height / 2⟩,
            ⟨(A.geometry.x + A.geometry.width + 20 + (B.geometry.x - 20)) / 2,
              B.geometry.y + B.geometry.height / 2⟩,
            ⟨B.geometry.x - 20, B.geometry.y + B.geometry.height / 2⟩] ∧
    (⟨(A.geometry.x + A.geometry.width + 20 + (B.geometry.x - 20)) / 2,
        A.geometry.y + A.geometry.height / 2⟩ : Point) =
      ⟨(A.geometry.x + A.geometry.width + 20 + (B.geometry.x - 20)) / 2,
        B.geometry.y + B.geometry.height / 2⟩ := by
  obtain ⟨s, t, pts, sa, sb, w⟩ := arrow
  dsimp only at hs ht hp
  subst hs ht hp
  refine ⟨?_, ?_, ?_⟩
  · rw [resolve_points_unconstrained, resolve_unconstrained_source_first,
      closest_point_same_band A B haw hbw hgap hband]
    simp only [Option.bind_eq_bind', Option.some_bind']
    rw [closest_point_from_right_anchor A B hbw hgap hband]
    simp only [Option.bind_eq_bind', Option.some_bind']
  · exact find_best_path_same_band A B haw
  · simp only [Point.mk.injEq, true_and]
    exact hband

/-- Witness for C3 (amended) at the boxes `(0,0,10,10)` and
`(70,0,10,10)`. -/
theorem same_band_path_two_elbows_witness :
    (0 : ℚ) + 10 < 70 ∧
    (resolve_points ⟨.node ⟨⟨0, 0, 10, 10, none⟩, .EAST⟩ none none,
        .node ⟨⟨70, 0, 10, 10, none⟩, .EAST⟩ none none, [], "none", "none", 1⟩ =
      some (⟨0 + 10, 0 + 10 / 2⟩, ⟨70, 0 + 10 / 2⟩) ∧
    synth_points ⟨.node ⟨⟨0, 0, 10, 10, none⟩, .EAST⟩ none none,
        .node ⟨⟨70, 0, 10, 10, none⟩, .EAST⟩ none none, [], "none", "none", 1⟩
        ⟨0 + 10, 0 + 10 / 2⟩ ⟨70, 0 + 10 / 2⟩ =
      some [⟨0 + 10 + 20, 0 + 10 / 2⟩, ⟨(0 + 10 + 20 + (70 - 20)) / 2, 0 + 10 / 2⟩,
            ⟨(0 + 10 + 20 + (70 - 20)) / 2, 0 + 10 / 2⟩, ⟨70 - 20, 0 + 10 / 2⟩] ∧
    (⟨(0 + 10 + 20 + (70 - 20)) / 2, 0 + 10 / 2⟩ : Point) =
      ⟨(0 + 10 + 20 + (70 - 20)) / 2, 0 + 10 / 2⟩) :=
  ⟨by norm_num,
   same_band_path_two_elbows
     ⟨.node ⟨⟨0, 0, 10, 10, none⟩, .EAST⟩ none none,
      .node ⟨⟨70, 0, 10, 10, none⟩, .EAST⟩ none none, [], "none", "none", 1⟩
     ⟨⟨0, 0, 10, 10, none⟩, .EAST⟩ ⟨⟨70, 0, 10, 10, none⟩, .EAST⟩
     rfl rfl rfl (by norm_num) (by norm_num) (by norm_num) (by norm_num)⟩
